import Mathlib

/-!
# MQTT JSON datasource: frame assembly, stream dispatch and query handling

A shallow embedding of `pkg/plugin/mqtt.go`.

* The functions of the plugin (`query`, `RunStream` and the per-message loop inside it) are
  transcribed statement by statement.
* The libraries the plugin calls (`encoding/json`, `strconv`, `oliveagle/jsonpath`) are not part
  of the repository: they are the fields of `Lib`, and the general theorems hold for every `Lib`.
  A concrete `Lib` (`sampleLib`) evaluates the model at fixed inputs.
* Go panics (slice index out of range, failed type assertion, nil dereference) are results of
  type `Except Panic`.
* `float64` is a type parameter `F`; `time.Time` is an integer count of nanoseconds.
* `RunStream` is run over the finite list of events its `select` receives; the datasource is the
  one in effect during the run (a concurrent `query` is not interleaved).
-/

namespace MqttJson

/-! ## Configuration structs -/

/-- Struct `jsonpathOptionModel`: one entry of `jsonpathOptions`. -/
structure jsonpathOptionModel where
  Jsonpath : String
  Alias : String
  DataType : String
deriving DecidableEq, Repr

/-- Struct `queryOptionsModel`: the topic and the ordered extraction rules. -/
structure queryOptionsModel where
  Topic : String
  JsonpathOptions : List jsonpathOptionModel
deriving DecidableEq, Repr

/-! ## Values handled by the libraries -/

/-- The generic tree `json.Unmarshal` stores in an `interface{}`: `nil`, `bool`, `float64`,
`string`, `[]interface{}` and `map[string]interface{}`. -/
inductive Json (F : Type) where
  | null : Json F
  | bool (b : Bool) : Json F
  | num (x : F) : Json F
  | str (s : String) : Json F
  | arr (xs : List (Json F)) : Json F
  | obj (kvs : List (String × Json F)) : Json F

/-- The two results of `strconv.ParseFloat(s, 64)`: the number and the error. A malformed text
gives `0` with `ErrSyntax`; a well-formed text out of range gives an infinity with `ErrRange`. -/
inductive ParseResult (F : Type) where
  | ok (x : F) : ParseResult F
  | malformed : ParseResult F
  | outOfRange (x : F) : ParseResult F
deriving DecidableEq, Repr

/-- The first result of `ParseFloat`, the only one `RunStream` keeps (`num, _ := ...`). -/
def ParseResult.num {F : Type} (zero : F) : ParseResult F → F
  | .ok x => x
  | .malformed => zero
  | .outOfRange x => x

/-- Whether `ParseFloat` returned a nil error. -/
def ParseResult.isOk {F : Type} : ParseResult F → Bool
  | .ok _ => true
  | _ => false

/-- `time.Time`, counted in nanoseconds from the zero `Time`. -/
abbrev Time := Int

/-- A Go panic. -/
inductive Panic where
  | indexOutOfRange (index len : Nat) : Panic
  | typeAssertion : Panic
  | nilDereference : Panic
deriving DecidableEq, Repr

/-- The library functions called by the plugin. `P` is the type of message payloads, `Q` the type
of query JSON documents.

* `Unmarshal p`: what `json.Unmarshal(p, &json_data)` leaves in a fresh `json_data`, and whether
  the returned error is nil.
* `JsonPathLookup`: `jsonpath.JsonPathLookup`. The call can return a value (`.ok (some v)`),
  return an error (`.ok none` stands for `err != nil`), or panic inside the library
  (`.error p`): on the empty path the library indexes an empty token list.
* `Marshal`: the bytes of `json.Marshal`, as a string.
* `ParseFloat`: `strconv.ParseFloat(_, 64)`.
* `UnmarshalQuery q`: `json.Unmarshal(q, &option)` for `var option *queryOptionsModel`: an error,
  or the pointer stored in `option` (`none` is the nil pointer, left by the document `null`). -/
structure Lib (F P Q : Type) where
  zero : F
  Unmarshal : P → Json F × Bool
  JsonPathLookup : Json F → String → Except Panic (Option (Json F))
  Marshal : Json F → String
  ParseFloat : String → ParseResult F
  UnmarshalQuery : Q → Except String (Option queryOptionsModel)

/-! ## Data frames -/

/-- A value passed to `Field.Set`. -/
inductive Value (F : Type) where
  | str (s : String) : Value F
  | float (x : F) : Value F
  | time (t : Time) : Value F
deriving DecidableEq, Repr

/-- The typed vector behind a field: `[]string`, `[]float64` or `[]time.Time`. -/
inductive Vector (F : Type) where
  | strings (v : List String) : Vector F
  | floats (v : List F) : Vector F
  | times (v : List Time) : Vector F
deriving DecidableEq, Repr

/-- A column: `data.Field` with its name and its vector (labels are always nil). -/
structure Field (F : Type) where
  Name : String
  vector : Vector F
deriving DecidableEq, Repr

/-- The channel address stored in the frame metadata by `query`. -/
structure Channel where
  Scope : String
  Namespace : String
  Path : String
deriving DecidableEq, Repr

/-- A frame: `data.Frame` with its name, its columns and the channel of its metadata. -/
structure Frame (F : Type) where
  Name : String
  Fields : List (Field F)
  Meta : Option Channel
deriving DecidableEq, Repr

/-- `data.NewFrame(name)`: a frame without columns. -/
def NewFrame {F : Type} (name : String) : Frame F :=
  ⟨name, [], none⟩

/-- `data.NewField(name, nil, values)`. -/
def NewField {F : Type} (name : String) (values : Vector F) : Field F :=
  ⟨name, values⟩

/-- `vector.Set(idx, val)`: the value is type-asserted to the element type and stored at `idx`. -/
def Vector.Set {F : Type} : Vector F → Nat → Value F → Except Panic (Vector F)
  | .strings v, idx, .str s =>
      if idx < v.length then .ok (.strings (v.set idx s)) else .error (.indexOutOfRange idx v.length)
  | .floats v, idx, .float x =>
      if idx < v.length then .ok (.floats (v.set idx x)) else .error (.indexOutOfRange idx v.length)
  | .times v, idx, .time t =>
      if idx < v.length then .ok (.times (v.set idx t)) else .error (.indexOutOfRange idx v.length)
  | _, _, _ => .error .typeAssertion

/-- `field.Set(idx, val)`. -/
def Field.Set {F : Type} (f : Field F) (idx : Nat) (val : Value F) : Except Panic (Field F) :=
  match f.vector.Set idx val with
  | .error e => .error e
  | .ok v => .ok ⟨f.Name, v⟩

/-- The statement `fields[index].Set(0, val)`: the slice is indexed first, then the field is
updated in place. -/
def setAt {F : Type} (fields : List (Field F)) (index : Nat) (val : Value F) :
    Except Panic (List (Field F)) :=
  match fields[index]? with
  | none => .error (.indexOutOfRange index fields.length)
  | some f =>
    match f.Set 0 val with
    | .error e => .error e
    | .ok g => .ok (fields.set index g)

/-! ## The per-message loop of `RunStream` -/

/-- The variables the loop over `JsonpathOptions` updates. -/
structure LoopState (F : Type) where
  frame : Frame F
  haveTimeAlias : Bool
deriving DecidableEq, Repr

/-- The columns appended for one option before the lookup: a one-row string column for
`"string"`, a one-row float column for `"number"`, nothing for any other `dataType`. -/
def appendField {F : Type} (zero : F) (fields : List (Field F)) (jsonField : jsonpathOptionModel) :
    List (Field F) :=
  if jsonField.DataType = "string" then
    fields ++ [NewField jsonField.Alias (.strings (List.replicate 1 ""))]
  else if jsonField.DataType = "number" then
    fields ++ [NewField jsonField.Alias (.floats (List.replicate 1 zero))]
  else fields

/-- One pass through the body of `for index, jsonField := range d.queryOptions.JsonpathOptions`. -/
def iteration {F P Q : Type} (lib : Lib F P Q) (json_data : Json F) (index : Nat)
    (jsonField : jsonpathOptionModel) (st : LoopState F) : Except Panic (LoopState F) :=
  if jsonField.Alias = "time" then
    .ok ⟨st.frame, true⟩
  else
    let fields := appendField lib.zero st.frame.Fields jsonField
    match lib.JsonPathLookup json_data jsonField.Jsonpath with
    | .error p => .error p
    | .ok none => .ok ⟨⟨st.frame.Name, fields, st.frame.Meta⟩, st.haveTimeAlias⟩
    | .ok (some res) =>
      let jsonBytes := lib.Marshal res
      if jsonField.DataType = "string" then
        match setAt fields index (.str jsonBytes) with
        | .error e => .error e
        | .ok fs => .ok ⟨⟨st.frame.Name, fs, st.frame.Meta⟩, st.haveTimeAlias⟩
      else if jsonField.DataType = "number" then
        match setAt fields index (.float ((lib.ParseFloat jsonBytes).num lib.zero)) with
        | .error e => .error e
        | .ok fs => .ok ⟨⟨st.frame.Name, fs, st.frame.Meta⟩, st.haveTimeAlias⟩
      else
        .ok ⟨⟨st.frame.Name, fields, st.frame.Meta⟩, st.haveTimeAlias⟩

/-- The `range` loop, from position `index` on. -/
def rangeLoop {F P Q : Type} (lib : Lib F P Q) (json_data : Json F) :
    Nat → List jsonpathOptionModel → LoopState F → Except Panic (LoopState F)
  | _, [], st => .ok st
  | index, jsonField :: rest, st =>
    match iteration lib json_data index jsonField st with
    | .error e => .error e
    | .ok st1 => rangeLoop lib json_data (index + 1) rest st1

/-- The frame `RunStream` builds from the decoded tree, between `data.NewFrame("response")` and
the call of `SendFrame`; `now` is the value of `time.Now()`. -/
def buildFrame {F P Q : Type} (lib : Lib F P Q) (JsonpathOptions : List jsonpathOptionModel)
    (json_data : Json F) (now : Time) : Except Panic (Frame F) :=
  match rangeLoop lib json_data 0 JsonpathOptions ⟨NewFrame "response", false⟩ with
  | .error e => .error e
  | .ok st =>
    if !st.haveTimeAlias then
      let fields := st.frame.Fields ++ [NewField "time" (.times (List.replicate 1 0))]
      match setAt fields (fields.length - 1) (.time now) with
      | .error e => .error e
      | .ok fs => .ok ⟨st.frame.Name, fs, st.frame.Meta⟩
    else .ok st.frame

/-- The whole handling of one received message up to the frame handed to `SendFrame`: the payload
is decoded, the error of `json.Unmarshal` is dropped, and the frame is built from whatever the
decoder left in `json_data`. -/
def messageFrame {F P Q : Type} (lib : Lib F P Q) (JsonpathOptions : List jsonpathOptionModel)
    (payload : P) (now : Time) : Except Panic (Frame F) :=
  buildFrame lib JsonpathOptions (lib.Unmarshal payload).1 now

/-! ## The datasource and `query` -/

/-- The part of the MQTT client the plugin observes: whether it is connected, and the topic
filters that have a subscription (each one routes its messages into `msgChan`). -/
structure Client where
  connected : Bool
  subscriptions : List String
deriving DecidableEq, Repr

/-- `client.Subscribe(topic, 0, callback)`. On a connected client and a filter the broker takes
(`accepts`), the filter is subscribed; subscribing a filter again replaces its subscription.
Otherwise the returned token carries an error, which `query` never reads. -/
def Client.Subscribe (accepts : String → Bool) (c : Client) (topic : String) : Client :=
  if c.connected && accepts topic then
    ⟨c.connected, if topic ∈ c.subscriptions then c.subscriptions else c.subscriptions ++ [topic]⟩
  else c

/-- Struct `MqttDatasource`: the fields `query` and `RunStream` read or write. -/
structure MqttDatasource where
  queryOptions : queryOptionsModel
  client : Client
deriving DecidableEq, Repr

/-- Struct `backend.DataResponse`. -/
structure DataResponse (F : Type) where
  Error : Option String
  Frames : List (Frame F)
deriving DecidableEq, Repr

/-- Method `query`. The subscription is requested first, for the topic configured so far; then
the query JSON is decoded, and `uid` is the UID of the datasource instance settings. -/
def query {F P Q : Type} (lib : Lib F P Q) (accepts : String → Bool) (d : MqttDatasource)
    (uid : String) (queryJSON : Q) : Except Panic (MqttDatasource × DataResponse F) :=
  let client := d.client.Subscribe accepts d.queryOptions.Topic
  match lib.UnmarshalQuery queryJSON with
  | .error err => .ok (⟨d.queryOptions, client⟩, ⟨some err, []⟩)
  | .ok none => .error .nilDereference
  | .ok (some option) =>
    let frame : Frame F := ⟨"response", [], some ⟨"ds", uid, "stream"⟩⟩
    .ok (⟨⟨option.Topic, option.JsonpathOptions⟩, client⟩, ⟨none, [frame]⟩)

/-! ## `RunStream` -/

/-- What one turn of the `select` in `RunStream` receives: the cancellation of the context, or a
message from `msgChan` together with the clock reading taken while it is handled. -/
inductive Event (P : Type) where
  | done : Event P
  | message (payload : P) (now : Time) : Event P

/-- How a run of `RunStream` over a finite list of events ends: it returned nil, it is blocked in
`select` waiting for the next event, or it panicked. -/
inductive Outcome where
  | returned : Outcome
  | waiting : Outcome
  | panicked (p : Panic) : Outcome
deriving DecidableEq, Repr

/-- The record of a run: the frames passed to `SendFrame`, in call order, and the calls whose
error was logged (numbered from 0). -/
structure StreamLog (F : Type) where
  sent : List (Frame F)
  sendErrors : List Nat
deriving DecidableEq, Repr

/-- The step after a frame is built: `SendFrame` is called once; `fails k` tells whether call
number `k` returns an error, which is logged. -/
def sendFrame {F : Type} (fails : Nat → Bool) (log : StreamLog F) (frame : Frame F) : StreamLog F :=
  ⟨log.sent ++ [frame],
    if fails log.sent.length then log.sendErrors ++ [log.sent.length] else log.sendErrors⟩

/-- Method `RunStream`, run over the events its `select` receives. -/
def RunStream {F P Q : Type} (lib : Lib F P Q) (d : MqttDatasource) (fails : Nat → Bool) :
    List (Event P) → StreamLog F → StreamLog F × Outcome
  | [], log => (log, .waiting)
  | .done :: _, log => (log, .returned)
  | .message payload now :: rest, log =>
    match messageFrame lib d.queryOptions.JsonpathOptions payload now with
    | .error p => (log, .panicked p)
    | .ok frame => RunStream lib d fails rest (sendFrame fails log frame)

/-- The messages `RunStream` receives before the context is cancelled. -/
def received {P : Type} : List (Event P) → List (P × Time)
  | [] => []
  | .done :: _ => []
  | .message payload now :: rest => (payload, now) :: received rest

/-- Whether the context is cancelled within the events. -/
def cancelled {P : Type} : List (Event P) → Bool
  | [] => false
  | .done :: _ => true
  | .message _ _ :: rest => cancelled rest

/-! ## The columns of an option, in closed form -/

/-- The value a string column ends with: the encoding of the value found, or the empty string
when the path does not resolve. -/
def stringCell {F P Q : Type} (lib : Lib F P Q) (json_data : Json F) (jsonField : jsonpathOptionModel) :
    String :=
  match lib.JsonPathLookup json_data jsonField.Jsonpath with
  | .ok (some res) => lib.Marshal res
  | _ => ""

/-- The value a float column ends with: the number parsed from the encoding of the value found,
or zero when the path does not resolve. -/
def floatCell {F P Q : Type} (lib : Lib F P Q) (json_data : Json F) (jsonField : jsonpathOptionModel) :
    F :=
  match lib.JsonPathLookup json_data jsonField.Jsonpath with
  | .ok (some res) => (lib.ParseFloat (lib.Marshal res)).num lib.zero
  | _ => lib.zero

/-- The columns one option leaves in the frame when its pass through the loop body completes:
none for the alias `"time"` or an unknown `dataType`, one otherwise. -/
def columns {F P Q : Type} (lib : Lib F P Q) (json_data : Json F) (jsonField : jsonpathOptionModel) :
    List (Field F) :=
  if jsonField.Alias = "time" then []
  else if jsonField.DataType = "string" then
    [⟨jsonField.Alias, .strings [stringCell lib json_data jsonField]⟩]
  else if jsonField.DataType = "number" then
    [⟨jsonField.Alias, .floats [floatCell lib json_data jsonField]⟩]
  else []

/-- An option list is well formed when no entry has the alias `"time"` and every `dataType` is
`"string"` or `"number"`. -/
def WellFormed (options : List jsonpathOptionModel) : Prop :=
  ∀ o ∈ options, o.Alias ≠ "time" ∧ (o.DataType = "string" ∨ o.DataType = "number")

/-- The single column of a well-formed option. -/
def column {F P Q : Type} (lib : Lib F P Q) (json_data : Json F) (jsonField : jsonpathOptionModel) :
    Field F :=
  if jsonField.DataType = "string" then
    ⟨jsonField.Alias, .strings [stringCell lib json_data jsonField]⟩
  else
    ⟨jsonField.Alias, .floats [floatCell lib json_data jsonField]⟩

/-- Whether some option has the alias `"time"`. -/
def hasTimeAlias (options : List jsonpathOptionModel) : Bool :=
  options.any (fun o => decide (o.Alias = "time"))

/-- Whether the pass for an option reaches a statement `frame.Fields[index].Set`: the alias is
not `"time"`, the `dataType` is known and the path resolves. -/
def writes {F P Q : Type} (lib : Lib F P Q) (json_data : Json F) (jsonField : jsonpathOptionModel) :
    Bool :=
  decide (jsonField.Alias ≠ "time") &&
    (decide (jsonField.DataType = "string") || decide (jsonField.DataType = "number")) &&
    (match lib.JsonPathLookup json_data jsonField.Jsonpath with
      | .ok (some _) => true
      | _ => false)

/-- The panic raised inside `jsonpath.JsonPathLookup` during the pass for an option, if any; the
lookup is not reached for the alias `"time"`. -/
def lookupPanic {F P Q : Type} (lib : Lib F P Q) (json_data : Json F)
    (jsonField : jsonpathOptionModel) : Option Panic :=
  if jsonField.Alias = "time" then none
  else
    match lib.JsonPathLookup json_data jsonField.Jsonpath with
    | .error p => some p
    | .ok _ => none

/-- Every call of `jsonpath.JsonPathLookup` for the options returns (a value or an error): none
panics inside the library. -/
def LookupsReturn {F P Q : Type} (lib : Lib F P Q) (json_data : Json F)
    (options : List jsonpathOptionModel) : Prop :=
  ∀ o ∈ options, ∃ r, lib.JsonPathLookup json_data o.Jsonpath = .ok r

/-- The column `"time"` appended when no option has the alias `"time"`. -/
def timeField {F : Type} (now : Time) : Field F :=
  ⟨"time", .times [now]⟩

/-- The number of columns named `"time"`. -/
def timeColumns {F : Type} (frame : Frame F) : Nat :=
  (frame.Fields.filter (fun f => decide (f.Name = "time"))).length

/-! ## A concrete library

An executable `Lib` on which the model is evaluated at concrete inputs. Numbers are decimals,
a payload is identified with what it decodes to, and the path language is the fragment `$` and
`$.key`. -/

/-- The decimal number `mant / 10 ^ scale`. -/
structure Dec where
  mant : Int
  scale : Nat
deriving DecidableEq, Repr

/-- The decimal text of a number: sign, integer digits, and the fraction digits after a point
when `scale` is positive. -/
def Dec.chars (d : Dec) : List Char :=
  let ds := Nat.toDigits 10 d.mant.natAbs
  let ds := List.replicate (d.scale + 1 - ds.length) '0' ++ ds
  let body :=
    if d.scale = 0 then ds
    else ds.take (ds.length - d.scale) ++ '.' :: ds.drop (ds.length - d.scale)
  if d.mant < 0 then '-' :: body else body

/-- The value of a run of decimal digits, read after `acc`; `none` at any other character. -/
def readDigits (acc : Nat) : List Char → Option Nat
  | [] => some acc
  | c :: cs => if c.isDigit then readDigits (acc * 10 + (c.toNat - 48)) cs else none

/-- Reads `-?digits` or `-?digits.digits`; any other text is malformed. -/
def Dec.parse (cs : List Char) : ParseResult Dec :=
  let neg := decide (cs.head? = some '-')
  let body := if neg then cs.drop 1 else cs
  let ip := body.takeWhile (fun c => c != '.')
  let fp := (body.dropWhile (fun c => c != '.')).drop 1
  let pointed := decide (ip.length < body.length)
  if ip.isEmpty || (pointed && fp.isEmpty) then .malformed
  else
    match readDigits 0 (ip ++ fp) with
    | none => .malformed
    | some n => .ok ⟨if neg then -(n : Int) else (n : Int), fp.length⟩

/-- A hexadecimal digit, in lower case. -/
def hexDigit (n : Nat) : Char :=
  if n < 10 then Char.ofNat (48 + n) else Char.ofNat (87 + n)

/-- The escape of one character inside a JSON string. -/
def escapeChar (c : Char) : List Char :=
  if c = '"' then ['\\', '"']
  else if c = '\\' then ['\\', '\\']
  else if c = '\n' then ['\\', 'n']
  else if c = '\r' then ['\\', 'r']
  else if c = '\t' then ['\\', 't']
  else if c.toNat < 32 || c = '<' || c = '>' || c = '&' then
    ['\\', 'u', '0', '0', hexDigit (c.toNat / 16), hexDigit (c.toNat % 16)]
  else [c]

/-- A JSON string literal: the escaped characters between double quotes. -/
def quoteChars (s : String) : List Char :=
  '"' :: (s.toList.flatMap escapeChar ++ ['"'])

mutual
/-- The JSON text of a tree. -/
def Json.chars : Json Dec → List Char
  | .null => ['n', 'u', 'l', 'l']
  | .bool true => ['t', 'r', 'u', 'e']
  | .bool false => ['f', 'a', 'l', 's', 'e']
  | .num x => x.chars
  | .str s => quoteChars s
  | .arr xs => Char.ofNat 91 :: (Json.elemChars xs ++ [Char.ofNat 93])
  | .obj kvs => Char.ofNat 123 :: (Json.memberChars kvs ++ [Char.ofNat 125])
/-- The elements of an array, separated by commas. -/
def Json.elemChars : List (Json Dec) → List Char
  | [] => []
  | x :: xs => Json.chars x ++ (if xs.isEmpty then [] else ',' :: Json.elemChars xs)
/-- The members of an object, separated by commas. -/
def Json.memberChars : List (String × Json Dec) → List Char
  | [] => []
  | (k, v) :: kvs =>
    quoteChars k ++ ':' :: (Json.chars v ++ (if kvs.isEmpty then [] else ',' :: Json.memberChars kvs))
end

/-- The lookup of the paths `$` (the tree itself) and `$.key` (a member of the root object). On
the empty path the library panics while it indexes its empty token list; any other path, and a
key that is missing, is an error. -/
def sampleLookup (tree : Json Dec) (path : String) : Except Panic (Option (Json Dec)) :=
  match path.toList with
  | [] => .error (.indexOutOfRange 0 0)
  | ['$'] => .ok (some tree)
  | '$' :: '.' :: key =>
    if key.all (fun c => c.isAlphanum) && !key.isEmpty then
      match tree with
      | .obj kvs => .ok (kvs.lookup (String.mk key))
      | _ => .ok none
    else .ok none
  | _ => .ok none

/-- The concrete library: a payload is `none` when its bytes are not JSON (the decoder leaves
`nil`) and `some t` when they encode the tree `t`; a query document is given by what it decodes
to. -/
def sampleLib : Lib Dec (Option (Json Dec)) (Except String (Option queryOptionsModel)) where
  zero := ⟨0, 0⟩
  Unmarshal := fun p =>
    match p with
    | none => (.null, false)
    | some t => (t, true)
  JsonPathLookup := sampleLookup
  Marshal := fun v => String.mk v.chars
  ParseFloat := fun s => Dec.parse s.toList
  UnmarshalQuery := fun q => q

/-- The topic filters the sample broker takes: the non-empty ones. -/
def sampleAccepts (topic : String) : Bool :=
  !topic.isEmpty

/-! ## The run of `RunStream`, in closed form -/

/-- The frames built for the messages received, in arrival order, up to the first message whose
frame raises a panic. -/
def builtFrames {F P Q : Type} (lib : Lib F P Q) (options : List jsonpathOptionModel) :
    List (P × Time) → List (Frame F)
  | [] => []
  | (payload, now) :: rest =>
    match messageFrame lib options payload now with
    | .error _ => []
    | .ok frame => frame :: builtFrames lib options rest

/-- The panic of the first message whose frame raises one. -/
def firstPanic {F P Q : Type} (lib : Lib F P Q) (options : List jsonpathOptionModel) :
    List (P × Time) → Option Panic
  | [] => none
  | (payload, now) :: rest =>
    match messageFrame lib options payload now with
    | .error p => some p
    | .ok _ => firstPanic lib options rest

/-! ## Concrete inputs -/

/-- Scenario A: one number option. -/
def optionsA : List jsonpathOptionModel :=
  [⟨"$.temp", "temperature", "number"⟩]

/-- Scenario A: the tree of `\x7b"temp": 21.5\x7d`. -/
def treeA : Json Dec :=
  .obj [("temp", .num ⟨215, 1⟩)]

/-- Scenario B: an option with the alias `"time"` followed by a number option. -/
def optionsB : List jsonpathOptionModel :=
  [⟨"$.ts", "time", "string"⟩, ⟨"$.val", "value", "number"⟩]

/-- Scenario B: the tree of `\x7b"ts": "2024-01-01T00:00:00Z", "val": 3\x7d`. -/
def treeB : Json Dec :=
  .obj [("ts", .str "2024-01-01T00:00:00Z"), ("val", .num ⟨3, 0⟩)]

/-- Scenario C: one string option whose path is missing from the message. -/
def optionsC : List jsonpathOptionModel :=
  [⟨"$.missing", "x", "string"⟩]

/-- A single option with the alias `"time"`. -/
def optionsTimeOnly : List jsonpathOptionModel :=
  [⟨"$.ts", "time", "string"⟩]

/-- A single option with a `dataType` that is neither `"string"` nor `"number"`. -/
def optionsBool : List jsonpathOptionModel :=
  [⟨"$.missing", "x", "bool"⟩]

/-- An option of unknown `dataType` followed by a string option. -/
def optionsBoolThenString : List jsonpathOptionModel :=
  [⟨"$.flag", "flag", "bool"⟩, ⟨"$.name", "name", "string"⟩]

/-- A `"time"`-aliased option whose path is missing, followed by a string option. -/
def optionsTimeThenName : List jsonpathOptionModel :=
  [⟨"$.missing", "time", "string"⟩, ⟨"$.name", "name", "string"⟩]

/-- An option of unknown `dataType` followed by a number option. -/
def optionsBoolThenTemp : List jsonpathOptionModel :=
  [⟨"$.flag", "flag", "bool"⟩, ⟨"$.temp", "temperature", "number"⟩]

/-- A string option whose path is missing, followed by a string option whose path resolves. -/
def optionsMissingName : List jsonpathOptionModel :=
  [⟨"$.missing", "x", "string"⟩, ⟨"$.name", "name", "string"⟩]

/-- A number option followed by a string option, both resolving in `treeNameTemp`. -/
def optionsTempName : List jsonpathOptionModel :=
  [⟨"$.temp", "temperature", "number"⟩, ⟨"$.name", "name", "string"⟩]

/-- A well-formed option whose path is empty. -/
def optionsEmptyPath : List jsonpathOptionModel :=
  [⟨"", "v", "string"⟩]

/-- A string option followed by a number option. -/
def optionsNameTemp : List jsonpathOptionModel :=
  [⟨"$.name", "name", "string"⟩, ⟨"$.temp", "temperature", "number"⟩]

/-- The tree of `\x7b"name": "pump", "temp": 21.5\x7d`. -/
def treeNameTemp : Json Dec :=
  .obj [("name", .str "pump"), ("temp", .num ⟨215, 1⟩)]

/-- A connected datasource configured with the topic `sensors/a`, which is subscribed. -/
def datasourceA : MqttDatasource :=
  ⟨⟨"sensors/a", optionsA⟩, ⟨true, ["sensors/a"]⟩⟩

/-- A fresh datasource, as `NewMqttDatasource` returns it on a connected client: empty query
options and no subscription. -/
def datasourceNew : MqttDatasource :=
  ⟨⟨"", []⟩, ⟨true, []⟩⟩

/-- A connected datasource configured with the options of Scenario B. -/
def datasourceB : MqttDatasource :=
  ⟨⟨"sensors/b", optionsB⟩, ⟨true, ["sensors/b"]⟩⟩

/-- A connected datasource configured with the options of Scenario C. -/
def datasourceC : MqttDatasource :=
  ⟨⟨"sensors/c", optionsC⟩, ⟨true, ["sensors/c"]⟩⟩

/-- A query document that decodes to the topic `sensors/a` and the options of Scenario A. -/
def queryA : Except String (Option queryOptionsModel) :=
  .ok (some ⟨"sensors/a", optionsA⟩)

/-- A query document that decodes to the topic `sensors/b` and the options of Scenario A. -/
def queryB : Except String (Option queryOptionsModel) :=
  .ok (some ⟨"sensors/b", optionsA⟩)

/-- A query document that is not JSON. -/
def queryMalformed : Except String (Option queryOptionsModel) :=
  .error "unexpected end of JSON input"

/-! ## Lemmas on `setAt` -/

theorem fieldSet_strings {F : Type} (name : String) (s0 s : String) :
    (⟨name, .strings [s0]⟩ : Field F).Set 0 (.str s) = .ok ⟨name, .strings [s]⟩ := by
  simp [Field.Set, Vector.Set]

theorem fieldSet_floats {F : Type} (name : String) (x0 x : F) :
    (⟨name, .floats [x0]⟩ : Field F).Set 0 (.float x) = .ok ⟨name, .floats [x]⟩ := by
  simp [Field.Set, Vector.Set]

theorem fieldSet_times {F : Type} (name : String) (t0 t : Time) :
    (⟨name, .times [t0]⟩ : Field F).Set 0 (.time t) = .ok ⟨name, .times [t]⟩ := by
  simp [Field.Set, Vector.Set]

/-- Writing at the position of the column just appended updates that column. -/
theorem setAt_last {F : Type} (fields : List (Field F)) (f g : Field F) (val : Value F)
    (h : f.Set 0 val = .ok g) :
    setAt (fields ++ [f]) fields.length val = .ok (fields ++ [g]) := by
  simp [setAt, h]

/-- Writing beyond the column just appended panics. -/
theorem setAt_beyond {F : Type} (fields : List (Field F)) (f : Field F) (val : Value F)
    (index : Nat) (h : fields.length < index) :
    setAt (fields ++ [f]) index val = .error (.indexOutOfRange index (fields.length + 1)) := by
  have hnone : (fields ++ [f])[index]? = none := by
    apply List.getElem?_eq_none
    simp
    omega
  simp [setAt, hnone]

/-! ## The loop body and the loop, in closed form -/

/-- One pass through the loop body: it panics when the lookup panics inside the library, and
when it reaches a write while fewer columns than `index` exist; otherwise it appends the columns
of the option. -/
theorem iteration_eq {F P Q : Type} (lib : Lib F P Q) (t : Json F) (index : Nat)
    (o : jsonpathOptionModel) (st : LoopState F) (hlen : st.frame.Fields.length ≤ index) :
    iteration lib t index o st =
      match lookupPanic lib t o with
      | some p => .error p
      | none =>
        if writes lib t o = true ∧ st.frame.Fields.length < index then
          .error (.indexOutOfRange index (st.frame.Fields.length + 1))
        else
          .ok ⟨⟨st.frame.Name, st.frame.Fields ++ columns lib t o, st.frame.Meta⟩,
            st.haveTimeAlias || decide (o.Alias = "time")⟩ := by
  unfold iteration writes columns appendField stringCell floatCell lookupPanic
  by_cases ha : o.Alias = "time"
  · simp [ha]
  · rcases hl : lib.JsonPathLookup t o.Jsonpath with p | r
    · simp [ha]
    · cases r with
      | none =>
        by_cases hs : o.DataType = "string"
        · simp [ha, hs, NewField]
        · by_cases hn : o.DataType = "number"
          · simp [ha, hs, hn, NewField]
          · simp [ha, hs, hn]
      | some res =>
        by_cases hs : o.DataType = "string"
        · rcases Nat.lt_or_eq_of_le hlen with hlt | heq
          · simp [ha, hs, hlt, NewField, setAt_beyond]
          · subst heq
            simp [ha, hs, NewField, setAt_last, fieldSet_strings]
        · by_cases hn : o.DataType = "number"
          · rcases Nat.lt_or_eq_of_le hlen with hlt | heq
            · simp [ha, hs, hn, hlt, NewField, setAt_beyond]
            · subst heq
              simp [ha, hs, hn, NewField, setAt_last, fieldSet_floats]
          · simp [ha, hs, hn]

/-- A list whose lookups all return raises no panic inside the library. -/
theorem lookupPanic_of_returns {F P Q : Type} (lib : Lib F P Q) (t : Json F)
    (opts : List jsonpathOptionModel) (h : LookupsReturn lib t opts) :
    ∀ o ∈ opts, lookupPanic lib t o = none := by
  intro o ho
  obtain ⟨r, hr⟩ := h o ho
  unfold lookupPanic
  split_ifs
  · rfl
  · simp [hr]

theorem columns_length_le {F P Q : Type} (lib : Lib F P Q) (t : Json F) (o : jsonpathOptionModel) :
    (columns lib t o).length ≤ 1 := by
  unfold columns
  split_ifs <;> simp

theorem columns_of_writes {F P Q : Type} (lib : Lib F P Q) (t : Json F) (o : jsonpathOptionModel)
    (h : writes lib t o = true) : columns lib t o = [column lib t o] := by
  unfold writes at h
  unfold columns column
  simp only [Bool.and_eq_true, Bool.or_eq_true, decide_eq_true_eq] at h
  obtain ⟨⟨ha, hty⟩, _⟩ := h
  by_cases hs : o.DataType = "string"
  · simp [ha, hs]
  · rcases hty with h1 | h1
    · exact absurd h1 hs
    · simp [ha, hs, h1]

theorem columns_of_wellFormed {F P Q : Type} (lib : Lib F P Q) (t : Json F)
    (o : jsonpathOptionModel) (ha : o.Alias ≠ "time")
    (hty : o.DataType = "string" ∨ o.DataType = "number") :
    columns lib t o = [column lib t o] := by
  unfold columns column
  by_cases hs : o.DataType = "string"
  · simp [ha, hs]
  · rcases hty with h1 | h1
    · exact absurd h1 hs
    · simp [ha, hs, h1]

theorem columns_name_ne_time {F P Q : Type} (lib : Lib F P Q) (t : Json F)
    (o : jsonpathOptionModel) : ∀ f ∈ columns lib t o, f.Name ≠ "time" := by
  intro f hf
  unfold columns at hf
  split_ifs at hf with ha hs hn
  · simp at hf
  · simp at hf; subst hf; exact ha
  · simp at hf; subst hf; exact ha
  · simp at hf

/-- A pass that completes raised no panic in the library, reached no write out of range, and
appended the columns of the option. -/
theorem iteration_ok_inv {F P Q : Type} (lib : Lib F P Q) (t : Json F) (index : Nat)
    (o : jsonpathOptionModel) (st st1 : LoopState F) (hlen : st.frame.Fields.length ≤ index)
    (h : iteration lib t index o st = .ok st1) :
    lookupPanic lib t o = none ∧
      ¬ (writes lib t o = true ∧ st.frame.Fields.length < index) ∧
      st1 = ⟨⟨st.frame.Name, st.frame.Fields ++ columns lib t o, st.frame.Meta⟩,
        st.haveTimeAlias || decide (o.Alias = "time")⟩ := by
  rw [iteration_eq lib t index o st hlen] at h
  cases hp : lookupPanic lib t o with
  | some p => simp [hp] at h
  | none =>
    simp only [hp] at h
    split_ifs at h with hc
    injection h with h
    exact ⟨rfl, hc, h.symm⟩

/-- A pass that raises no panic in the library and reaches no write out of range completes. -/
theorem iteration_ok_of {F P Q : Type} (lib : Lib F P Q) (t : Json F) (index : Nat)
    (o : jsonpathOptionModel) (st : LoopState F) (hlen : st.frame.Fields.length ≤ index)
    (hp : lookupPanic lib t o = none)
    (hc : ¬ (writes lib t o = true ∧ st.frame.Fields.length < index)) :
    iteration lib t index o st =
      .ok ⟨⟨st.frame.Name, st.frame.Fields ++ columns lib t o, st.frame.Meta⟩,
        st.haveTimeAlias || decide (o.Alias = "time")⟩ := by
  rw [iteration_eq lib t index o st hlen]
  simp only [hp]
  rw [if_neg hc]

theorem rangeLoop_cons_ok {F P Q : Type} (lib : Lib F P Q) (t : Json F) (index : Nat)
    (o : jsonpathOptionModel) (rest : List jsonpathOptionModel) (st st' : LoopState F)
    (h : rangeLoop lib t index (o :: rest) st = .ok st') :
    ∃ st1, iteration lib t index o st = .ok st1 ∧
      rangeLoop lib t (index + 1) rest st1 = .ok st' := by
  rw [rangeLoop] at h
  cases hi : iteration lib t index o st with
  | error e => simp [hi] at h
  | ok st1 => exact ⟨st1, rfl, by simpa [hi] using h⟩

/-- When the loop completes, the frame holds the columns of the options, in option order. -/
theorem rangeLoop_ok {F P Q : Type} (lib : Lib F P Q) (t : Json F) :
    ∀ (opts : List jsonpathOptionModel) (index : Nat) (st st' : LoopState F),
      st.frame.Fields.length ≤ index → rangeLoop lib t index opts st = .ok st' →
      st'.frame.Fields = st.frame.Fields ++ opts.flatMap (columns lib t) ∧
        st'.frame.Name = st.frame.Name ∧ st'.frame.Meta = st.frame.Meta ∧
        st'.haveTimeAlias = (st.haveTimeAlias || hasTimeAlias opts) := by
  intro opts
  induction opts with
  | nil =>
    intro index st st' _ h
    simp only [rangeLoop, Except.ok.injEq] at h
    subst h
    simp [hasTimeAlias]
  | cons o rest ih =>
    intro index st st' hlen h
    obtain ⟨st1, hi, hr⟩ := rangeLoop_cons_ok lib t index o rest st st' h
    obtain ⟨_, _, hst1⟩ := iteration_ok_inv lib t index o st st1 hlen hi
    subst hst1
    have hlen1 : (st.frame.Fields ++ columns lib t o).length ≤ index + 1 := by
      have := columns_length_le lib t o
      simp only [List.length_append]
      omega
    obtain ⟨h1, h2, h3, h4⟩ := ih (index + 1) _ st' hlen1 hr
    refine ⟨?_, h2, h3, ?_⟩
    · simp [h1]
    · simp [h4, hasTimeAlias, Bool.or_assoc]

/-- When the loop completes, an option that reached a write found exactly `index` columns. -/
theorem rangeLoop_written {F P Q : Type} (lib : Lib F P Q) (t : Json F) :
    ∀ (opts : List jsonpathOptionModel) (index : Nat) (st st' : LoopState F),
      st.frame.Fields.length ≤ index → rangeLoop lib t index opts st = .ok st' →
      ∀ (k : Nat) (o : jsonpathOptionModel), opts[k]? = some o → writes lib t o = true →
        st.frame.Fields.length + ((opts.take k).flatMap (columns lib t)).length = index + k := by
  intro opts
  induction opts with
  | nil => intro index st st' _ _ k o hk; simp at hk
  | cons o0 rest ih =>
    intro index st st' hlen h k o hk hw
    obtain ⟨st1, hi, hr⟩ := rangeLoop_cons_ok lib t index o0 rest st st' h
    obtain ⟨_, hc, hst1⟩ := iteration_ok_inv lib t index o0 st st1 hlen hi
    subst hst1
    have hlen1 : (st.frame.Fields ++ columns lib t o0).length ≤ index + 1 := by
      have := columns_length_le lib t o0
      simp only [List.length_append]
      omega
    cases k with
    | zero =>
      simp only [List.getElem?_cons_zero, Option.some.injEq] at hk
      subst hk
      have : ¬ st.frame.Fields.length < index := fun hlt => hc ⟨hw, hlt⟩
      simp
      omega
    | succ k =>
      simp only [List.getElem?_cons_succ] at hk
      have := ih (index + 1) _ st' hlen1 hr k o hk hw
      simp only [List.length_append] at this
      simp only [List.take_succ_cons, List.flatMap_cons, List.length_append]
      omega

/-- When the loop completes, no lookup raised a panic inside the library. -/
theorem rangeLoop_lookups {F P Q : Type} (lib : Lib F P Q) (t : Json F) :
    ∀ (opts : List jsonpathOptionModel) (index : Nat) (st st' : LoopState F),
      st.frame.Fields.length ≤ index → rangeLoop lib t index opts st = .ok st' →
      ∀ o ∈ opts, lookupPanic lib t o = none := by
  intro opts
  induction opts with
  | nil => intro index st st' _ _ o ho; simp at ho
  | cons o0 rest ih =>
    intro index st st' hlen h o ho
    obtain ⟨st1, hi, hr⟩ := rangeLoop_cons_ok lib t index o0 rest st st' h
    obtain ⟨hp, _, hst1⟩ := iteration_ok_inv lib t index o0 st st1 hlen hi
    subst hst1
    have hlen1 : (st.frame.Fields ++ columns lib t o0).length ≤ index + 1 := by
      have := columns_length_le lib t o0
      simp only [List.length_append]
      omega
    rcases List.mem_cons.mp ho with rfl | hmem
    · exact hp
    · exact ih (index + 1) _ st' hlen1 hr o hmem

/-- On a well-formed option list whose lookups all return, every write is in range: the loop
completes. -/
theorem rangeLoop_total {F P Q : Type} (lib : Lib F P Q) (t : Json F) :
    ∀ (opts : List jsonpathOptionModel) (index : Nat) (st : LoopState F),
      WellFormed opts → LookupsReturn lib t opts → st.frame.Fields.length = index →
      ∃ st', rangeLoop lib t index opts st = .ok st' := by
  intro opts
  induction opts with
  | nil => intro index st _ _ _; exact ⟨st, rfl⟩
  | cons o rest ih =>
    intro index st hwf hret hlen
    have ho := hwf o (List.mem_cons_self o rest)
    have hrest : WellFormed rest := fun x hx => hwf x (List.mem_cons_of_mem o hx)
    have hretrest : LookupsReturn lib t rest := fun x hx => hret x (List.mem_cons_of_mem o hx)
    have hp := lookupPanic_of_returns lib t (o :: rest) hret o (List.mem_cons_self o rest)
    have hno : ¬ (writes lib t o = true ∧ st.frame.Fields.length < index) := by
      intro hc; omega
    rw [rangeLoop, iteration_ok_of lib t index o st (le_of_eq hlen) hp hno]
    apply ih (index + 1) _ hrest hretrest
    simp [columns_of_wellFormed lib t o ho.1 ho.2, hlen]

theorem flatMap_columns_wellFormed {F P Q : Type} (lib : Lib F P Q) (t : Json F) :
    ∀ (opts : List jsonpathOptionModel), WellFormed opts →
      opts.flatMap (columns lib t) = opts.map (column lib t) := by
  intro opts
  induction opts with
  | nil => intro _; rfl
  | cons o rest ih =>
    intro hwf
    have ho := hwf o (List.mem_cons_self o rest)
    have hrest : WellFormed rest := fun x hx => hwf x (List.mem_cons_of_mem o hx)
    simp [columns_of_wellFormed lib t o ho.1 ho.2, ih hrest]

theorem hasTimeAlias_wellFormed (opts : List jsonpathOptionModel) (hwf : WellFormed opts) :
    hasTimeAlias opts = false := by
  unfold hasTimeAlias
  rw [List.any_eq_false]
  intro o ho
  simpa using (hwf o ho).1

/-! ## The frame of a message, in closed form -/

/-- When `buildFrame` completes, the frame holds the columns of the options in option order,
followed by the column `"time"` exactly when no option has the alias `"time"`. -/
theorem buildFrame_ok {F P Q : Type} (lib : Lib F P Q) (opts : List jsonpathOptionModel)
    (t : Json F) (now : Time) (frame : Frame F) (h : buildFrame lib opts t now = .ok frame) :
    frame = ⟨"response",
      opts.flatMap (columns lib t) ++ (if hasTimeAlias opts then [] else [timeField now]),
      none⟩ := by
  unfold buildFrame at h
  cases hr : rangeLoop lib t 0 opts ⟨NewFrame "response", false⟩ with
  | error e => simp [hr] at h
  | ok st =>
    obtain ⟨h1, h2, h3, h4⟩ := rangeLoop_ok lib t opts 0 _ st (Nat.zero_le _) hr
    simp only [NewFrame, List.nil_append, Bool.false_or] at h1 h2 h3 h4
    simp only [hr] at h
    by_cases hta : hasTimeAlias opts = true
    · simp only [h4, hta, Bool.not_true] at h
      simp at h
      subst h
      cases st with
      | mk fr b =>
        cases fr
        simp_all
    · simp only [Bool.not_eq_true] at hta
      simp only [h4, hta, Bool.not_false, if_true, List.length_append, List.length_singleton,
        Nat.add_sub_cancel, NewField, List.replicate] at h
      rw [setAt_last _ _ _ _ (fieldSet_times "time" 0 now)] at h
      simp only [Except.ok.injEq] at h
      subst h
      simp [h1, h2, h3, hta, timeField]

/-- On a well-formed option list whose lookups all return, `buildFrame` completes, with one
column per option followed by the column `"time"`. -/
theorem buildFrame_wellFormed {F P Q : Type} (lib : Lib F P Q) (opts : List jsonpathOptionModel)
    (t : Json F) (now : Time) (hwf : WellFormed opts) (hret : LookupsReturn lib t opts) :
    buildFrame lib opts t now =
      .ok ⟨"response", opts.map (column lib t) ++ [timeField now], none⟩ := by
  obtain ⟨st, hr⟩ := rangeLoop_total lib t opts 0 ⟨NewFrame "response", false⟩ hwf hret rfl
  have hex : ∃ frame, buildFrame lib opts t now = .ok frame := by
    obtain ⟨h1, h2, h3, h4⟩ := rangeLoop_ok lib t opts 0 _ st (Nat.zero_le _) hr
    unfold buildFrame
    simp only [hr, h4, hasTimeAlias_wellFormed opts hwf, Bool.or_false, Bool.not_false, if_true,
      List.length_append, List.length_singleton, Nat.add_sub_cancel, NewField, List.replicate]
    rw [setAt_last _ _ _ _ (fieldSet_times "time" 0 now)]
    exact ⟨_, rfl⟩
  obtain ⟨frame, hf⟩ := hex
  rw [hf, buildFrame_ok lib opts t now frame hf, flatMap_columns_wellFormed lib t opts hwf,
    hasTimeAlias_wellFormed opts hwf]
  simp

/-- A frame built from a well-formed option list has one column per option followed by the
column `"time"`. -/
theorem buildFrame_ok_wellFormed {F P Q : Type} (lib : Lib F P Q)
    (opts : List jsonpathOptionModel) (t : Json F) (now : Time) (frame : Frame F)
    (hwf : WellFormed opts) (h : buildFrame lib opts t now = .ok frame) :
    frame = ⟨"response", opts.map (column lib t) ++ [timeField now], none⟩ := by
  rw [buildFrame_ok lib opts t now frame h, flatMap_columns_wellFormed lib t opts hwf,
    hasTimeAlias_wellFormed opts hwf]
  simp

/-- When `buildFrame` completes, an option that reached a write has its column at its own
position. -/
theorem buildFrame_written {F P Q : Type} (lib : Lib F P Q) (opts : List jsonpathOptionModel)
    (t : Json F) (now : Time) (frame : Frame F) (h : buildFrame lib opts t now = .ok frame)
    (k : Nat) (o : jsonpathOptionModel) (hk : opts[k]? = some o) (hw : writes lib t o = true) :
    frame.Fields[k]? = some (column lib t o) := by
  have hfr := buildFrame_ok lib opts t now frame h
  unfold buildFrame at h
  cases hr : rangeLoop lib t 0 opts ⟨NewFrame "response", false⟩ with
  | error e => simp [hr] at h
  | ok st =>
    have hcount := rangeLoop_written lib t opts 0 _ st (Nat.zero_le _) hr k o hk hw
    simp only [NewFrame, List.length_nil, Nat.zero_add] at hcount
    have hklt : k < opts.length := by
      rcases Nat.lt_or_ge k opts.length with hlt | hge
      · exact hlt
      · rw [List.getElem?_eq_none hge] at hk; simp at hk
    have hsplit : opts = opts.take k ++ o :: opts.drop (k + 1) := by
      have hd : opts.drop k = o :: opts.drop (k + 1) := by
        rw [List.drop_eq_getElem_cons hklt]
        congr 1
        rw [List.getElem?_eq_getElem hklt] at hk
        exact Option.some.inj hk
      rw [← hd, List.take_append_drop]
    have hflat : opts.flatMap (columns lib t) =
        (opts.take k).flatMap (columns lib t) ++
          (column lib t o :: (opts.drop (k + 1)).flatMap (columns lib t)) := by
      conv_lhs => rw [hsplit]
      simp [columns_of_writes lib t o hw]
    rw [hfr]
    simp only
    rw [hflat, List.append_assoc, List.getElem?_append_right (by omega)]
    simp [hcount]




/-- The loop completes when no lookup panics inside the library and every option that reaches a
write finds exactly `index` columns. -/
theorem rangeLoop_complete {F P Q : Type} (lib : Lib F P Q) (t : Json F) :
    ∀ (opts : List jsonpathOptionModel) (index : Nat) (st : LoopState F),
      st.frame.Fields.length ≤ index →
      (∀ o ∈ opts, lookupPanic lib t o = none) →
      (∀ (k : Nat) (o : jsonpathOptionModel), opts[k]? = some o → writes lib t o = true →
        st.frame.Fields.length + ((opts.take k).flatMap (columns lib t)).length = index + k) →
      ∃ st', rangeLoop lib t index opts st = .ok st' := by
  intro opts
  induction opts with
  | nil => intro index st _ _ _; exact ⟨st, rfl⟩
  | cons o0 rest ih =>
    intro index st hlen hnp hal
    have hno : ¬ (writes lib t o0 = true ∧ st.frame.Fields.length < index) := by
      rintro ⟨hw, hlt⟩
      have := hal 0 o0 (by simp) hw
      simp at this
      omega
    rw [rangeLoop, iteration_ok_of lib t index o0 st hlen
      (hnp o0 (List.mem_cons_self o0 rest)) hno]
    apply ih (index + 1)
    · have := columns_length_le lib t o0
      simp only [List.length_append]
      omega
    · exact fun o ho => hnp o (List.mem_cons_of_mem o0 ho)
    · intro k o hk hw
      have := hal (k + 1) o (by simpa using hk) hw
      simp only [List.take_succ_cons, List.flatMap_cons, List.length_append] at this
      simp only [List.length_append]
      omega

/-- The exact condition under which a frame is built: no lookup panics inside the library, and
every option that reaches a write `frame.Fields[k].Set` is preceded by `k` columns, that is, no
option before it was skipped (alias `"time"`) or left without a column (unknown `dataType`). In
every other case the loop panics. -/
theorem buildFrame_ok_iff {F P Q : Type} (lib : Lib F P Q) (opts : List jsonpathOptionModel)
    (t : Json F) (now : Time) :
    (∃ frame, buildFrame lib opts t now = .ok frame) ↔
      (∀ o ∈ opts, lookupPanic lib t o = none) ∧
      ∀ (k : Nat) (o : jsonpathOptionModel), opts[k]? = some o → writes lib t o = true →
        ((opts.take k).flatMap (columns lib t)).length = k := by
  constructor
  · rintro ⟨frame, h⟩
    unfold buildFrame at h
    cases hr : rangeLoop lib t 0 opts ⟨NewFrame "response", false⟩ with
    | error e => simp [hr] at h
    | ok st =>
      refine ⟨rangeLoop_lookups lib t opts 0 _ st (Nat.zero_le _) hr, ?_⟩
      intro k o hk hw
      have := rangeLoop_written lib t opts 0 _ st (Nat.zero_le _) hr k o hk hw
      simpa [NewFrame] using this
  · rintro ⟨hnp, hal⟩
    obtain ⟨st, hr⟩ := rangeLoop_complete lib t opts 0 ⟨NewFrame "response", false⟩
      (Nat.zero_le _) hnp (by
        intro k o hk hw
        simpa [NewFrame] using hal k o hk hw)
    unfold buildFrame
    simp only [hr]
    by_cases hta : st.haveTimeAlias = true
    · simp [hta]
    · simp only [Bool.not_eq_true] at hta
      simp only [hta, Bool.not_false, if_true, List.length_append, List.length_singleton,
        Nat.add_sub_cancel, NewField, List.replicate]
      rw [setAt_last _ _ _ _ (fieldSet_times "time" 0 now)]
      exact ⟨_, rfl⟩

/-- A frame is built only when every lookup of an option not aliased `"time"` returned. -/
theorem buildFrame_lookups_return {F P Q : Type} (lib : Lib F P Q)
    (opts : List jsonpathOptionModel) (t : Json F) (now : Time) (frame : Frame F)
    (hwf : WellFormed opts) (h : buildFrame lib opts t now = .ok frame) :
    LookupsReturn lib t opts := by
  intro o ho
  have hp := ((buildFrame_ok_iff lib opts t now).mp ⟨frame, h⟩).1 o ho
  unfold lookupPanic at hp
  rw [if_neg (hwf o ho).1] at hp
  cases hl : lib.JsonPathLookup t o.Jsonpath with
  | error p => simp [hl] at hp
  | ok r => exact ⟨r, rfl⟩

/-! ## The concrete library -/

theorem escapeChar_length (c : Char) : 1 ≤ (escapeChar c).length := by
  unfold escapeChar
  split_ifs <;> simp

theorem flatMap_escapeChar_length (cs : List Char) :
    cs.length ≤ (cs.flatMap escapeChar).length := by
  induction cs with
  | nil => simp
  | cons c rest ih =>
    have := escapeChar_length c
    simp only [List.flatMap_cons, List.length_append, List.length_cons]
    omega

/-- In the concrete library the encoding of a JSON string is its escaped text between double
quotes, and escaping never shortens the text. -/
theorem sampleLib_Marshal_str (s : String) :
    sampleLib.Marshal (.str s) = "\"" ++ String.mk (s.toList.flatMap escapeChar) ++ "\"" ∧
      s.length ≤ (String.mk (s.toList.flatMap escapeChar)).length := by
  constructor
  · apply String.ext
    simp [sampleLib, Json.chars, quoteChars]
  · simpa using flatMap_escapeChar_length s.toList

/-- In the concrete library the encodings of values that are not numbers do not parse as
numbers, and the encoding of a number parses back to it. -/
theorem sampleLib_ParseFloat_examples :
    sampleLib.ParseFloat (sampleLib.Marshal (.str "21.5")) = .malformed ∧
      sampleLib.ParseFloat (sampleLib.Marshal .null) = .malformed ∧
      sampleLib.ParseFloat (sampleLib.Marshal (.bool true)) = .malformed ∧
      sampleLib.ParseFloat (sampleLib.Marshal (.arr [.num ⟨1, 0⟩])) = .malformed ∧
      sampleLib.ParseFloat (sampleLib.Marshal (.obj [("a", .num ⟨1, 0⟩)])) = .malformed ∧
      sampleLib.ParseFloat (sampleLib.Marshal (.num ⟨215, 1⟩)) = .ok ⟨215, 1⟩ ∧
      sampleLib.ParseFloat (sampleLib.Marshal (.num ⟨-5, 3⟩)) = .ok ⟨-5, 3⟩ :=
  ⟨rfl, rfl, rfl, rfl, rfl, rfl, rfl⟩

/-- On the empty path the lookup panics inside the library, and with it the loop: a well-formed
option list whose path is empty builds no frame. -/
theorem emptyPath_panics :
    WellFormed optionsEmptyPath ∧
      buildFrame sampleLib optionsEmptyPath (.obj []) 7 = .error (.indexOutOfRange 0 0) := by
  refine ⟨?_, rfl⟩
  intro o ho
  simp only [optionsEmptyPath, List.mem_singleton] at ho
  subst ho
  decide

/-- The columns of the options never carry the name `"time"`. -/
theorem filter_time_flatMap_columns {F P Q : Type} (lib : Lib F P Q) (t : Json F)
    (opts : List jsonpathOptionModel) :
    (opts.flatMap (columns lib t)).filter (fun f => decide (f.Name = "time")) = [] := by
  rw [List.filter_eq_nil_iff]
  intro f hf
  rw [List.mem_flatMap] at hf
  obtain ⟨o, _, hfo⟩ := hf
  simpa using columns_name_ne_time lib t o f hfo

/-- The column of an option depends only on the option, on what its own path finds, and on the
two conversions. -/
theorem column_congr {F P Q : Type} (lib lib' : Lib F P Q) (t t' : Json F)
    (o : jsonpathOptionModel) (hz : lib'.zero = lib.zero) (hm : lib'.Marshal = lib.Marshal)
    (hp : lib'.ParseFloat = lib.ParseFloat)
    (hl : lib'.JsonPathLookup t' o.Jsonpath = lib.JsonPathLookup t o.Jsonpath) :
    column lib' t' o = column lib t o := by
  unfold column stringCell floatCell
  rw [hl, hz, hm, hp]

/-! ## The run of `RunStream` -/

/-- The frames passed to `SendFrame` are the frames built for the messages received, in arrival
order, up to the first panic; the failures of `SendFrame` play no part. -/
theorem RunStream_sent {F P Q : Type} (lib : Lib F P Q) (d : MqttDatasource) (fails : Nat → Bool) :
    ∀ (events : List (Event P)) (log : StreamLog F),
      (RunStream lib d fails events log).1.sent =
        log.sent ++ builtFrames lib d.queryOptions.JsonpathOptions (received events) := by
  intro events
  induction events with
  | nil => intro log; simp [RunStream, received, builtFrames]
  | cons e rest ih =>
    intro log
    cases e with
    | done => simp [RunStream, received, builtFrames]
    | message payload now =>
      simp only [RunStream, received, builtFrames]
      cases hm : messageFrame lib d.queryOptions.JsonpathOptions payload now with
      | error p => simp
      | ok frame => simp [ih, sendFrame]

/-- A run ends by a panic at the first message whose frame raises one; otherwise it returns nil
when the context is cancelled, and waits for the next event when it is not. -/
theorem RunStream_outcome {F P Q : Type} (lib : Lib F P Q) (d : MqttDatasource)
    (fails : Nat → Bool) :
    ∀ (events : List (Event P)) (log : StreamLog F),
      (RunStream lib d fails events log).2 =
        match firstPanic lib d.queryOptions.JsonpathOptions (received events) with
        | some p => .panicked p
        | none => if cancelled events then .returned else .waiting := by
  intro events
  induction events with
  | nil => intro log; simp [RunStream, received, firstPanic, cancelled]
  | cons e rest ih =>
    intro log
    cases e with
    | done => simp [RunStream, received, firstPanic, cancelled]
    | message payload now =>
      simp only [RunStream, received, firstPanic, cancelled]
      cases hm : messageFrame lib d.queryOptions.JsonpathOptions payload now with
      | error p => simp
      | ok frame => simp [ih]

/-- With well-formed options and lookups that all return, no message raises a panic: one frame
is passed to `SendFrame` for each message received, in arrival order, whatever `SendFrame`
returns, and the run returns nil exactly when the context is cancelled. -/
theorem RunStream_wellFormed {F P Q : Type} (lib : Lib F P Q) (d : MqttDatasource)
    (fails : Nat → Bool) (hwf : WellFormed d.queryOptions.JsonpathOptions)
    (events : List (Event P)) (log : StreamLog F)
    (hret : ∀ m ∈ received events,
      LookupsReturn lib (lib.Unmarshal m.1).1 d.queryOptions.JsonpathOptions) :
    (RunStream lib d fails events log).1.sent =
        log.sent ++ (received events).map (fun m =>
          ⟨"response", d.queryOptions.JsonpathOptions.map (column lib (lib.Unmarshal m.1).1) ++
            [timeField m.2], none⟩) ∧
      (RunStream lib d fails events log).2 = (if cancelled events then .returned else .waiting) := by
  have hb : ∀ ms : List (P × Time),
      (∀ m ∈ ms, LookupsReturn lib (lib.Unmarshal m.1).1 d.queryOptions.JsonpathOptions) →
      builtFrames lib d.queryOptions.JsonpathOptions ms = ms.map (fun m =>
          ⟨"response", d.queryOptions.JsonpathOptions.map (column lib (lib.Unmarshal m.1).1) ++
            [timeField m.2], none⟩) ∧
      firstPanic lib d.queryOptions.JsonpathOptions ms = none := by
    intro ms
    induction ms with
    | nil => intro _; simp [builtFrames, firstPanic]
    | cons m rest ih =>
      intro hms
      obtain ⟨payload, now⟩ := m
      have h1 := hms (payload, now) (List.mem_cons_self _ _)
      have h2 := ih (fun x hx => hms x (List.mem_cons_of_mem _ hx))
      simp [builtFrames, firstPanic, messageFrame, buildFrame_wellFormed lib _ _ now hwf h1, h2]
  rw [RunStream_sent, RunStream_outcome, (hb (received events) hret).1,
    (hb (received events) hret).2]
  simp

/-! ## C1: the column `"time"` -/

/-- C1, counterexample. The option list holds a single entry, aliased `"time"`; the message
carries the member `ts`. The frame built has no column at all: the entry is skipped and no time
column is synthesized, so the frame does not contain exactly one column named `"time"`. -/
theorem C1_counterexample :
    (optionsTimeOnly.filter (fun o => decide (o.Alias = "time"))).length ≤ 1 ∧
      messageFrame sampleLib optionsTimeOnly (some treeB) 7 = .ok ⟨"response", [], none⟩ ∧
      ¬ ∃ frame, messageFrame sampleLib optionsTimeOnly (some treeB) 7 = .ok frame ∧
          timeColumns frame = 1 := by
  refine ⟨by decide, rfl, ?_⟩
  rintro ⟨frame, hf, hc⟩
  have he : messageFrame sampleLib optionsTimeOnly (some treeB) 7 = .ok ⟨"response", [], none⟩ :=
    rfl
  rw [he] at hf
  injection hf with hf
  subst hf
  exact absurd hc (by decide)

/-- C1, amended. Whenever `RunStream` builds a frame for a message, the frame contains exactly
one column named `"time"` if no option has the alias `"time"`, and no such column if some option
has that alias. -/
theorem C1_time_columns {F P Q : Type} (lib : Lib F P Q) (opts : List jsonpathOptionModel)
    (payload : P) (now : Time) (frame : Frame F)
    (h : messageFrame lib opts payload now = .ok frame) :
    timeColumns frame = if hasTimeAlias opts = true then 0 else 1 := by
  have hfr := buildFrame_ok lib opts _ now frame h
  rw [hfr]
  unfold timeColumns
  simp only [List.filter_append, filter_time_flatMap_columns, List.nil_append]
  by_cases hta : hasTimeAlias opts = true
  · simp [hta]
  · simp [hta, timeField]

/-- C1, witness: Scenario A (no `"time"` alias, one column named `"time"`). -/
theorem C1_time_columns_witness :
    timeColumns (⟨"response", [⟨"temperature", .floats [⟨215, 1⟩]⟩, ⟨"time", .times [7]⟩], none⟩ :
        Frame Dec) = if hasTimeAlias optionsA = true then 0 else 1 :=
  C1_time_columns sampleLib optionsA (some treeA) 7 _ rfl

/-! ## C3: the writes `frame.Fields[index].Set` -/

/-- C3, failing input. On Scenario B (the `"time"`-aliased option first, then a number option
whose path resolves) the write `frame.Fields[1].Set` finds a slice of length 1: the loop raises
an index-out-of-range panic and no frame is built. The same happens when an option of unknown
`dataType` precedes an option whose path resolves. -/
theorem C3_scenarioB_panics :
    buildFrame sampleLib optionsB treeB 7 = .error (.indexOutOfRange 1 1) ∧
      buildFrame sampleLib optionsBoolThenString (.obj [("name", .str "pump")]) 7 =
        .error (.indexOutOfRange 1 1) :=
  ⟨rfl, rfl⟩

/-! ## C7: the shape of the frame -/

/-- C7, counterexample. The option list has no `"time"` alias and one entry of `dataType`
`"bool"`: the frame has one column, not two, and its column 0 is the synthesized `"time"`, not a
column named by the alias. -/
theorem C7_counterexample :
    hasTimeAlias optionsBool = false ∧
      messageFrame sampleLib optionsBool (some (.obj [])) 7 =
        .ok ⟨"response", [⟨"time", .times [7]⟩], none⟩ ∧
      ¬ ∃ frame, messageFrame sampleLib optionsBool (some (.obj [])) 7 = .ok frame ∧
          frame.Fields.length = optionsBool.length + 1 := by
  refine ⟨by decide, rfl, ?_⟩
  rintro ⟨frame, hf, hc⟩
  have he : messageFrame sampleLib optionsBool (some (.obj [])) 7 =
      .ok ⟨"response", [⟨"time", .times [7]⟩], none⟩ := rfl
  rw [he] at hf
  injection hf with hf
  subst hf
  exact absurd hc (by decide)

/-- C7, amended. For every message and every option list without a `"time"` alias whose
`dataType`s are all `"string"` or `"number"`, and for which no call of `jsonpath.JsonPathLookup`
panics, `RunStream` builds a frame with exactly `len(options) + 1` columns; column `i` is named
`options[i].alias` and is a one-row string column for `"string"`, a one-row float column for
`"number"`; the synthesized `"time"` column, holding the current time, is the last column. -/
theorem C7_frame_shape {F P Q : Type} (lib : Lib F P Q) (opts : List jsonpathOptionModel)
    (payload : P) (now : Time) (hwf : WellFormed opts)
    (hret : LookupsReturn lib (lib.Unmarshal payload).1 opts) :
    ∃ frame, messageFrame lib opts payload now = .ok frame ∧
      frame.Fields.length = opts.length + 1 ∧
      (∀ (i : Nat) (o : jsonpathOptionModel), opts[i]? = some o →
        ∃ f : Field F, frame.Fields[i]? = some f ∧ f.Name = o.Alias ∧
          (o.DataType = "string" → ∃ s, f.vector = Vector.strings [s]) ∧
          (o.DataType = "number" → ∃ x, f.vector = Vector.floats [x])) ∧
      frame.Fields[opts.length]? = some ⟨"time", .times [now]⟩ ∧
      frame.Fields.getLast? = some ⟨"time", .times [now]⟩ := by
  refine ⟨_, buildFrame_wellFormed lib opts _ now hwf hret, by simp, ?_, by simp [timeField],
    by simp [timeField]⟩
  intro i o hi
  have hilt : i < opts.length := by
    rcases Nat.lt_or_ge i opts.length with hlt | hge
    · exact hlt
    · rw [List.getElem?_eq_none hge] at hi; simp at hi
  refine ⟨column lib (lib.Unmarshal payload).1 o, ?_, ?_, ?_, ?_⟩
  · simp only
    rw [List.getElem?_append_left (by simpa using hilt), List.getElem?_map, hi]
    rfl
  · unfold column; split_ifs <;> rfl
  · intro hs; exact ⟨_, by unfold column; rw [if_pos hs]⟩
  · intro hn
    have hs : ¬ o.DataType = "string" := by rw [hn]; decide
    exact ⟨_, by unfold column; rw [if_neg hs]⟩

/-- C7, witness: a string option and a number option. -/
theorem C7_frame_shape_witness :
    ∃ frame, messageFrame sampleLib optionsNameTemp (some treeNameTemp) 7 = .ok frame ∧
      frame.Fields.length = optionsNameTemp.length + 1 ∧
      (∀ (i : Nat) (o : jsonpathOptionModel), optionsNameTemp[i]? = some o →
        ∃ f : Field Dec, frame.Fields[i]? = some f ∧ f.Name = o.Alias ∧
          (o.DataType = "string" → ∃ s, f.vector = Vector.strings [s]) ∧
          (o.DataType = "number" → ∃ x, f.vector = Vector.floats [x])) ∧
      frame.Fields[optionsNameTemp.length]? = some ⟨"time", .times [7]⟩ ∧
      frame.Fields.getLast? = some ⟨"time", .times [7]⟩ :=
  C7_frame_shape sampleLib optionsNameTemp (some treeNameTemp) 7
    (by
      intro o ho
      simp only [optionsNameTemp, List.mem_cons, List.mem_singleton, List.not_mem_nil,
        or_false] at ho
      rcases ho with rfl | rfl <;> decide)
    (by
      intro o ho
      simp only [optionsNameTemp, List.mem_cons, List.mem_singleton, List.not_mem_nil,
        or_false] at ho
      rcases ho with rfl | rfl <;> exact ⟨_, rfl⟩)

/-! ## C4: independence of the columns -/

/-- C4, counterexample. (1) The single option has `dataType` `"bool"` and a path that does not
resolve: column 0 of the frame is not an empty column for the option but the `"time"` column
holding the current time. (2) Option 0 is aliased `"time"` and does not resolve: option 1 has no
column 1, its column stands at position 0. -/
theorem C4_counterexample :
    (sampleLib.JsonPathLookup (.obj []) "$.missing" = .ok none ∧
      buildFrame sampleLib optionsBool (.obj []) 7 =
        .ok ⟨"response", [⟨"time", .times [7]⟩], none⟩) ∧
    (buildFrame sampleLib optionsTimeThenName (.obj []) 7 =
        .ok ⟨"response", [⟨"name", .strings [""]⟩], none⟩ ∧
      (⟨"response", [⟨"name", .strings [""]⟩], none⟩ : Frame Dec).Fields[1]? = none) :=
  ⟨⟨rfl, rfl⟩, rfl, rfl⟩

/-- C4, amended. For every message tree and every option list without a `"time"` alias whose
`dataType`s are all `"string"` or `"number"`, and for which no call of `jsonpath.JsonPathLookup`
panics: a frame is built; if the path of option `i` does not resolve, column `i` holds the empty
value of its type (`""` or `0`); and every column `j` holds a value that depends only on option
`j` and on what its own path finds: it is the same in any other run that builds a frame (other
tree, other lookup results for the other paths, other options around it) in which option `j` and
the result of its lookup are the same. -/
theorem C4_independence {F P Q : Type} (lib : Lib F P Q) (opts : List jsonpathOptionModel)
    (t : Json F) (now : Time) (i : Nat) (o : jsonpathOptionModel) (hwf : WellFormed opts)
    (hret : LookupsReturn lib t opts)
    (hi : opts[i]? = some o) (hmiss : lib.JsonPathLookup t o.Jsonpath = .ok none) :
    ∃ frame, buildFrame lib opts t now = .ok frame ∧
      frame.Fields[i]? = some
        (if o.DataType = "string" then ⟨o.Alias, .strings [""]⟩ else ⟨o.Alias, .floats [lib.zero]⟩) ∧
      ∀ (j : Nat) (oj : jsonpathOptionModel), opts[j]? = some oj →
        frame.Fields[j]? = some (column lib t oj) ∧
        ∀ (lib' : Lib F P Q) (opts' : List jsonpathOptionModel) (t' : Json F) (now' : Time)
          (frame' : Frame F), lib'.zero = lib.zero → lib'.Marshal = lib.Marshal →
          lib'.ParseFloat = lib.ParseFloat → WellFormed opts' → opts'[j]? = some oj →
          lib'.JsonPathLookup t' oj.Jsonpath = lib.JsonPathLookup t oj.Jsonpath →
          buildFrame lib' opts' t' now' = .ok frame' → frame'.Fields[j]? = frame.Fields[j]? := by
  have hcol : ∀ (lib1 : Lib F P Q) (opts1 : List jsonpathOptionModel) (t1 : Json F) (now1 : Time)
      (j : Nat) (oj : jsonpathOptionModel), opts1[j]? = some oj →
      (opts1.map (column lib1 t1) ++ [timeField now1])[j]? = some (column lib1 t1 oj) := by
    intro lib1 opts1 t1 now1 j oj hj
    have hjlt : j < opts1.length := by
      rcases Nat.lt_or_ge j opts1.length with hlt | hge
      · exact hlt
      · rw [List.getElem?_eq_none hge] at hj; simp at hj
    rw [List.getElem?_append_left (by simpa using hjlt), List.getElem?_map, hj]
    rfl
  refine ⟨_, buildFrame_wellFormed lib opts t now hwf hret, ?_, ?_⟩
  · simp only
    rw [hcol lib opts t now i o hi]
    unfold column stringCell floatCell
    rw [hmiss]
  · intro j oj hj
    refine ⟨hcol lib opts t now j oj hj, ?_⟩
    intro lib' opts' t' now' frame' hz hm hp hwf' hj' hl hf'
    rw [buildFrame_ok_wellFormed lib' opts' t' now' frame' hwf' hf']
    simp only
    rw [hcol lib' opts' t' now' j oj hj', hcol lib opts t now j oj hj,
      column_congr lib lib' t t' oj hz hm hp hl]

/-- C4, witness. Two string options on the message with the members `name` and `temp`: the path
of option 0 is missing, the path of option 1 resolves. Column 0 is empty, column 1 holds the
encoding of `name`, and column 1 is the same as in the run where option 0 is a number option
whose path resolves. -/
theorem C4_independence_witness :
    ∃ frame, buildFrame sampleLib optionsMissingName treeNameTemp 7 = .ok frame ∧
      frame.Fields[0]? = some ⟨"x", .strings [""]⟩ ∧
      frame.Fields[1]? = some ⟨"name", .strings ["\"pump\""]⟩ ∧
      (⟨"response", [⟨"temperature", .floats [⟨215, 1⟩]⟩, ⟨"name", .strings ["\"pump\""]⟩,
        ⟨"time", .times [9]⟩], none⟩ : Frame Dec).Fields[1]? = frame.Fields[1]? := by
  obtain ⟨frame, hb, h0, hall⟩ :=
    C4_independence sampleLib optionsMissingName treeNameTemp 7 0 ⟨"$.missing", "x", "string"⟩
      (by
        intro o ho
        simp only [optionsMissingName, List.mem_cons, List.mem_singleton, List.not_mem_nil,
          or_false] at ho
        rcases ho with rfl | rfl <;> decide)
      (by
        intro o ho
        simp only [optionsMissingName, List.mem_cons, List.mem_singleton, List.not_mem_nil,
          or_false] at ho
        rcases ho with rfl | rfl <;> exact ⟨_, rfl⟩)
      rfl rfl
  obtain ⟨h1, hind⟩ := hall 1 ⟨"$.name", "name", "string"⟩ rfl
  refine ⟨frame, hb, h0, h1, ?_⟩
  exact hind sampleLib optionsTempName treeNameTemp 9 _ rfl rfl rfl
    (by
      intro o ho
      simp only [optionsTempName, List.mem_cons, List.mem_singleton, List.not_mem_nil,
        or_false] at ho
      rcases ho with rfl | rfl <;> decide)
    rfl rfl rfl

/-! ## C8: number columns -/

/-- C8, counterexample. The option list has no `"time"` alias; option 0 has `dataType` `"bool"`,
option 1 is a number option whose path resolves to `21.5`. Option 0 appends no column, so the
write `frame.Fields[1].Set` of option 1 is out of range: no frame is built and no column holds
the number. -/
theorem C8_counterexample :
    hasTimeAlias optionsBoolThenTemp = false ∧
      optionsBoolThenTemp[1]? = some ⟨"$.temp", "temperature", "number"⟩ ∧
      sampleLib.JsonPathLookup treeA "$.temp" = .ok (some (.num ⟨215, 1⟩)) ∧
      buildFrame sampleLib optionsBoolThenTemp treeA 7 = .error (.indexOutOfRange 1 1) ∧
      ¬ ∃ frame, buildFrame sampleLib optionsBoolThenTemp treeA 7 = .ok frame ∧
          frame.Fields[1]? = some ⟨"temperature", .floats [⟨215, 1⟩]⟩ := by
  refine ⟨by decide, rfl, rfl, rfl, ?_⟩
  rintro ⟨frame, hf, _⟩
  have he : buildFrame sampleLib optionsBoolThenTemp treeA 7 = .error (.indexOutOfRange 1 1) :=
    rfl
  rw [he] at hf
  cases hf

/-- C8, amended. For every option `i` of `dataType` `"number"` whose alias is not `"time"` and
whose path resolves in the message tree to a value `v`: whenever a frame is built, column `i` is
the float column named by the alias and holds the first result of `ParseFloat` on the JSON
encoding of `v`. So a JSON number `n` whose encoding parses back to `n` yields `n`, and an
encoding that is not the text of a number yields `0`. A frame is built for every tree on which no
call of `jsonpath.JsonPathLookup` panics, when the option list has no `"time"` alias and all its
`dataType`s are `"string"` or `"number"`. -/
theorem C8_number_conversion {F P Q : Type} (lib : Lib F P Q) (opts : List jsonpathOptionModel)
    (t : Json F) (now : Time) (frame : Frame F) (i : Nat) (o : jsonpathOptionModel) (v : Json F)
    (h : buildFrame lib opts t now = .ok frame) (hi : opts[i]? = some o)
    (ha : o.Alias ≠ "time") (hty : o.DataType = "number")
    (hv : lib.JsonPathLookup t o.Jsonpath = .ok (some v)) :
    frame.Fields[i]? =
        some ⟨o.Alias, .floats [(lib.ParseFloat (lib.Marshal v)).num lib.zero]⟩ ∧
      (∀ n : F, v = .num n → lib.ParseFloat (lib.Marshal (.num n)) = .ok n →
        frame.Fields[i]? = some ⟨o.Alias, .floats [n]⟩) ∧
      (lib.ParseFloat (lib.Marshal v) = .malformed →
        frame.Fields[i]? = some ⟨o.Alias, .floats [lib.zero]⟩) ∧
      (WellFormed opts → ∀ (t' : Json F) (now' : Time), LookupsReturn lib t' opts →
        ∃ frame', buildFrame lib opts t' now' = .ok frame') := by
  have hw : writes lib t o = true := by
    unfold writes
    simp [ha, hty, hv]
  have hs : ¬ o.DataType = "string" := by rw [hty]; decide
  have hcell : frame.Fields[i]? =
      some ⟨o.Alias, .floats [(lib.ParseFloat (lib.Marshal v)).num lib.zero]⟩ := by
    rw [buildFrame_written lib opts t now frame h i o hi hw]
    unfold column floatCell
    rw [if_neg hs, hv]
  refine ⟨hcell, ?_, ?_, ?_⟩
  · intro n hn hrt
    subst hn
    rw [hcell, hrt]
    rfl
  · intro hbad
    rw [hcell, hbad]
    rfl
  · intro hwf t' now' hret
    exact ⟨_, buildFrame_wellFormed lib opts t' now' hwf hret⟩

/-- C8, witness: Scenario A, where `temp` is `21.5`; the encoding `21.5` parses back to the
number, and the column holds it. -/
theorem C8_number_conversion_witness :
    (⟨"response", [⟨"temperature", .floats [⟨215, 1⟩]⟩, ⟨"time", .times [7]⟩], none⟩ :
        Frame Dec).Fields[0]? = some ⟨"temperature", .floats [⟨215, 1⟩]⟩ :=
  (C8_number_conversion sampleLib optionsA treeA 7 _ 0 ⟨"$.temp", "temperature", "number"⟩
    (.num ⟨215, 1⟩) rfl rfl (by decide) rfl rfl).2.1 ⟨215, 1⟩ rfl rfl

/-! ## C10: string columns -/

/-- C10, counterexample. The option list has no `"time"` alias; option 0 has `dataType`
`"bool"`, option 1 is a string option whose path resolves to the JSON string `pump`. Option 0
appends no column, so the write `frame.Fields[1].Set` of option 1 is out of range: no frame is
built and no column holds the encoding. -/
theorem C10_counterexample :
    hasTimeAlias optionsBoolThenString = false ∧
      optionsBoolThenString[1]? = some ⟨"$.name", "name", "string"⟩ ∧
      sampleLib.JsonPathLookup treeNameTemp "$.name" = .ok (some (.str "pump")) ∧
      buildFrame sampleLib optionsBoolThenString treeNameTemp 7 =
        .error (.indexOutOfRange 1 1) ∧
      ¬ ∃ frame, buildFrame sampleLib optionsBoolThenString treeNameTemp 7 = .ok frame ∧
          frame.Fields[1]? = some ⟨"name", .strings ["\"pump\""]⟩ := by
  refine ⟨by decide, rfl, rfl, rfl, ?_⟩
  rintro ⟨frame, hf, _⟩
  have he : buildFrame sampleLib optionsBoolThenString treeNameTemp 7 =
      .error (.indexOutOfRange 1 1) := rfl
  rw [he] at hf
  cases hf

/-- C10, amended. For every option `i` of `dataType` `"string"` whose alias is not `"time"` and
whose path resolves in the message tree to a value `v`: whenever a frame is built, column `i` is
the string column named by the alias and holds the JSON encoding of `v`, not its raw text. When
`v` is a JSON string `s`, whose encoding is the escaped text `e` of `s` between double quotes,
the column holds that quoted text, which differs from `s`. A frame is built for every tree on
which no call of `jsonpath.JsonPathLookup` panics, when the option list has no `"time"` alias and
all its `dataType`s are `"string"` or `"number"`. -/
theorem C10_string_conversion {F P Q : Type} (lib : Lib F P Q) (opts : List jsonpathOptionModel)
    (t : Json F) (now : Time) (frame : Frame F) (i : Nat) (o : jsonpathOptionModel) (v : Json F)
    (h : buildFrame lib opts t now = .ok frame) (hi : opts[i]? = some o)
    (ha : o.Alias ≠ "time") (hty : o.DataType = "string")
    (hv : lib.JsonPathLookup t o.Jsonpath = .ok (some v)) :
    frame.Fields[i]? = some ⟨o.Alias, .strings [lib.Marshal v]⟩ ∧
      (∀ s e : String, v = .str s → lib.Marshal (.str s) = "\"" ++ e ++ "\"" →
        s.length ≤ e.length →
        frame.Fields[i]? = some ⟨o.Alias, .strings ["\"" ++ e ++ "\""]⟩ ∧
          "\"" ++ e ++ "\"" ≠ s) ∧
      (WellFormed opts → ∀ (t' : Json F) (now' : Time), LookupsReturn lib t' opts →
        ∃ frame', buildFrame lib opts t' now' = .ok frame') := by
  have hw : writes lib t o = true := by
    unfold writes
    simp [ha, hty, hv]
  have hcell : frame.Fields[i]? = some ⟨o.Alias, .strings [lib.Marshal v]⟩ := by
    rw [buildFrame_written lib opts t now frame h i o hi hw]
    unfold column stringCell
    rw [if_pos hty, hv]
  refine ⟨hcell, ?_, ?_⟩
  · intro s e hs hq hlen
    subst hs
    refine ⟨by rw [hcell, hq], ?_⟩
    intro heq
    have hl := congrArg String.length heq
    simp only [String.length_append] at hl
    have : ("\"" : String).length = 1 := by decide
    omega
  · intro hwf t' now' hret
    exact ⟨_, buildFrame_wellFormed lib opts t' now' hwf hret⟩

/-- C10, witness: the member `name` is the JSON string `pump`; the column holds `"pump"` with
its quotes. -/
theorem C10_string_conversion_witness :
    (⟨"response", [⟨"name", .strings ["\"pump\""]⟩, ⟨"temperature", .floats [⟨215, 1⟩]⟩,
        ⟨"time", .times [7]⟩], none⟩ : Frame Dec).Fields[0]? =
      some ⟨"name", .strings ["\"" ++ "pump" ++ "\""]⟩ ∧ "\"" ++ "pump" ++ "\"" ≠ "pump" :=
  (C10_string_conversion sampleLib optionsNameTemp treeNameTemp 7 _ 0 ⟨"$.name", "name", "string"⟩
    (.str "pump") rfl rfl (by decide) rfl rfl).2.1 "pump" "pump" rfl rfl (by decide)

/-! ## C2: messages that fail to decode -/

/-- C2, counterexample. The payload is not JSON (the decoder reports an error and leaves `nil`);
`RunStream` still calls `SendFrame` once for it, with the frame of Scenario C built from the nil
tree. -/
theorem C2_counterexample :
    (sampleLib.Unmarshal none).2 = false ∧
      RunStream sampleLib datasourceC (fun _ => false) [.message none 7] ⟨[], []⟩ =
        (⟨[⟨"response", [⟨"x", .strings [""]⟩, ⟨"time", .times [7]⟩], none⟩], []⟩, .waiting) ∧
      (RunStream sampleLib datasourceC (fun _ => false) [.message none 7] ⟨[], []⟩).1.sent.length
        ≠ 0 :=
  ⟨rfl, rfl, by decide⟩

/-- C2, amended. For every message whose payload fails to decode as JSON, `RunStream` drops the
decode error: it builds the frame from the tree the decoder left, and when that frame is built it
calls `SendFrame` exactly once for the message, with that frame, and goes on to process the
following messages. -/
theorem C2_undecodable_message_sent {F P Q : Type} (lib : Lib F P Q) (d : MqttDatasource)
    (fails : Nat → Bool) (payload : P) (now : Time) (rest : List (Event P)) (log : StreamLog F)
    (frame : Frame F) (_hbad : (lib.Unmarshal payload).2 = false)
    (hf : buildFrame lib d.queryOptions.JsonpathOptions (lib.Unmarshal payload).1 now = .ok frame) :
    RunStream lib d fails (.message payload now :: rest) log =
        RunStream lib d fails rest (sendFrame fails log frame) ∧
      (sendFrame fails log frame).sent = log.sent ++ [frame] ∧
      (RunStream lib d fails (.message payload now :: rest) log).1.sent =
        log.sent ++ frame :: builtFrames lib d.queryOptions.JsonpathOptions (received rest) := by
  have hm : messageFrame lib d.queryOptions.JsonpathOptions payload now = .ok frame := hf
  refine ⟨by simp [RunStream, hm], rfl, ?_⟩
  rw [RunStream_sent]
  simp [received, builtFrames, hm]

/-- C2, witness: an undecodable payload followed by a decodable one and the cancellation. -/
theorem C2_undecodable_message_sent_witness :
    RunStream sampleLib datasourceC (fun _ => true)
        (.message none 7 :: [.message (some (.obj [])) 8, .done]) ⟨[], []⟩ =
      RunStream sampleLib datasourceC (fun _ => true) [.message (some (.obj [])) 8, .done]
        (sendFrame (fun _ => true) ⟨[], []⟩
          ⟨"response", [⟨"x", .strings [""]⟩, ⟨"time", .times [7]⟩], none⟩) :=
  (C2_undecodable_message_sent sampleLib datasourceC (fun _ => true) none 7
    [.message (some (.obj [])) 8, .done] ⟨[], []⟩ _ rfl rfl).1

/-! ## C9: the dispatcher and delivery errors -/

/-- C9, failing input. The datasource is configured with the options of Scenario B and receives
the message of Scenario B twice, then the cancellation. `RunStream` panics at the first message:
no `SendFrame` is attempted for either message, and the run ends without the context being
cancelled. -/
theorem C9_scenarioB_stops_dispatcher :
    RunStream sampleLib datasourceB (fun _ => false)
        [.message (some treeB) 7, .message (some treeB) 8, .done] ⟨[], []⟩ =
      (⟨[], []⟩, .panicked (.indexOutOfRange 1 1)) ∧
    (received [Event.message (some treeB) 7, .message (some treeB) 8, .done]).length = 2 :=
  ⟨rfl, rfl⟩

/-! ## C5 and C6: `query` -/

theorem subscribe_keeps (accepts : String → Bool) (c : Client) (topic x : String)
    (hx : x ∈ c.subscriptions) : x ∈ (c.Subscribe accepts topic).subscriptions := by
  unfold Client.Subscribe
  split_ifs <;> simp [hx]

/-- A query whose JSON fails to parse returns the parse error and leaves the topic and the
options as they were; its only effect is the subscription requested before the parse. -/
theorem query_parse_error {F P Q : Type} (lib : Lib F P Q) (accepts : String → Bool)
    (d : MqttDatasource) (uid : String) (q : Q) (err : String)
    (hq : lib.UnmarshalQuery q = .error err) :
    (query lib accepts d uid q : Except Panic (MqttDatasource × DataResponse F)) =
      .ok (⟨d.queryOptions, d.client.Subscribe accepts d.queryOptions.Topic⟩, ⟨some err, []⟩) := by
  simp [query, hq]

/-- C5, counterexample. The datasource is subscribed to `sensors/a` and the query parses to the
topic `sensors/b`. After `query` returns, `sensors/a` is still subscribed and the set of
subscriptions is not `sensors/b` alone. -/
theorem C5_counterexample :
    (query sampleLib sampleAccepts datasourceA "uid" queryB :
        Except Panic (MqttDatasource × DataResponse Dec)) =
      .ok (⟨⟨"sensors/b", optionsA⟩, ⟨true, ["sensors/a"]⟩⟩,
        ⟨none, [⟨"response", [], some ⟨"ds", "uid", "stream"⟩⟩]⟩) ∧
    "sensors/a" ∈ (["sensors/a"] : List String) ∧ (["sensors/a"] : List String) ≠ ["sensors/b"] :=
  ⟨rfl, by decide, by decide⟩

/-- C5, amended. For every datasource state and every query whose JSON parses to a
configuration with topic `T`: `query` returns a response without error, the configured topic is
`T` and the configured options are those of the query; `query` unsubscribes nothing: every topic
subscribed before the call is still subscribed after it. -/
theorem C5_query_keeps_subscriptions {F P Q : Type} (lib : Lib F P Q) (accepts : String → Bool)
    (d : MqttDatasource) (uid : String) (q : Q) (option : queryOptionsModel)
    (hq : lib.UnmarshalQuery q = .ok (some option)) :
    ∃ (d' : MqttDatasource) (resp : DataResponse F),
      query lib accepts d uid q = .ok (d', resp) ∧ resp.Error = none ∧
      d'.queryOptions.Topic = option.Topic ∧
      d'.queryOptions.JsonpathOptions = option.JsonpathOptions ∧
      ∀ topic ∈ d.client.subscriptions, topic ∈ d'.client.subscriptions := by
  refine ⟨⟨⟨option.Topic, option.JsonpathOptions⟩,
      d.client.Subscribe accepts d.queryOptions.Topic⟩,
    ⟨none, [⟨"response", [], some ⟨"ds", uid, "stream"⟩⟩]⟩, ?_, rfl, rfl, rfl, ?_⟩
  · simp only [query, hq]
  · intro topic ht
    exact subscribe_keeps accepts d.client d.queryOptions.Topic topic ht

/-- C5, witness: the switch from `sensors/a` to `sensors/b`. -/
theorem C5_query_keeps_subscriptions_witness :
    ∃ (d' : MqttDatasource) (resp : DataResponse Dec),
      query sampleLib sampleAccepts datasourceA "uid" queryB = .ok (d', resp) ∧
      resp.Error = none ∧ d'.queryOptions.Topic = "sensors/b" ∧
      d'.queryOptions.JsonpathOptions = optionsA ∧
      ∀ topic ∈ datasourceA.client.subscriptions, topic ∈ d'.client.subscriptions :=
  C5_query_keeps_subscriptions sampleLib sampleAccepts datasourceA "uid" queryB
    ⟨"sensors/b", optionsA⟩ rfl

/-- C6, failing input. A fresh connected datasource first handles a query for `sensors/a`: the
topic is configured and nothing is subscribed. It then handles a query whose JSON does not parse:
the response carries the parse error and the topic and options are unchanged, but the
subscriptions change from none to `sensors/a`. -/
theorem C6_parse_error_subscribes :
    (query sampleLib sampleAccepts datasourceNew "uid" queryA :
        Except Panic (MqttDatasource × DataResponse Dec)) =
      .ok (⟨⟨"sensors/a", optionsA⟩, ⟨true, []⟩⟩,
        ⟨none, [⟨"response", [], some ⟨"ds", "uid", "stream"⟩⟩]⟩) ∧
    (query sampleLib sampleAccepts ⟨⟨"sensors/a", optionsA⟩, ⟨true, []⟩⟩ "uid" queryMalformed :
        Except Panic (MqttDatasource × DataResponse Dec)) =
      .ok (⟨⟨"sensors/a", optionsA⟩, ⟨true, ["sensors/a"]⟩⟩,
        ⟨some "unexpected end of JSON input", []⟩) ∧
    (["sensors/a"] : List String) ≠ [] :=
  ⟨rfl, rfl, by decide⟩

end MqttJson
